import Mathlib

/-!
Shallow embedding of `scripts/generate_third_party_license_file.py`.

The script invokes an external license scanner, parses its JSON stdout into a
mapping from `name@version` keys to dependency metadata, extracts per-dependency
fields (component name, origin URL, license, copyright line), and writes a CSV.
Python strings are modelled as Lean `String` (operated on through `String.data`,
a list of characters), the dependency graph as an association list, the file
system as a partial map from paths to lists of lines, and Python exceptions as
an error type threaded through `Except`.
-/

/-- Python exceptions that the script can raise, by site. -/
inductive PyError where
  /-- `subprocess.check_output` on a non-zero exit of the scanner. -/
  | calledProcessError
  /-- `json.loads` on stdout that is not valid JSON. -/
  | jsonDecodeError
  /-- `.group(1)` on a failed `re.search` (returns `None`). -/
  | attributeError
  /-- a dict subscript on a missing key. -/
  | keyError
  /-- reading `dep_copyright` before any assignment to it. -/
  | nameError
  /-- `open(license_file)` on an unreadable path. -/
  | ioError
  deriving DecidableEq, Repr

/-- JSON value of the `licenses` field: the scanner emits a string or a list of
strings and the script passes it through unchanged. -/
inductive LicenseVal where
  | str (s : String)
  | list (ss : List String)
  deriving DecidableEq, Repr

/-- Metadata object for one dependency, as produced by the scanner's JSON:
the three optional fields the script reads. -/
structure DepMeta where
  repository : Option String := none
  licenses : Option LicenseVal := none
  licenseFile : Option String := none
  deriving DecidableEq, Repr

/-- One output row: the dict appended to `formatted_deps`. -/
structure Record where
  Component : String
  Origin : String
  License : LicenseVal
  Copyright : String
  deriving DecidableEq, Repr

/-- The parsed scanner output: an ordered association list standing for the
JSON object mapping `name@version` keys to metadata (keys of a JSON object
are unique; the list order is the dict's insertion order). -/
abbrev Graph : Type := List (String × DepMeta)

/-- File system visible to the script: a path resolves to the list of lines of
the file (as Python file iteration yields them), or to `none` when opening the
path raises. -/
abbrev FS : Type := String → Option (List String)

/-- Boolean prefix test on character lists, the semantics of both Python's
`str.startswith` and an anchored `re.match` against a literal pattern. -/
def strPre : List Char → List Char → Bool
  | [], _ => true
  | _ :: _, [] => false
  | a :: as, b :: bs => a == b && strPre as bs

/-- Python `s.startswith(pre)`. -/
def pyStartswith (s pre : String) : Bool := strPre pre.data s.data

/-- Python whitespace for `str.strip`: space, tab, newline, carriage return,
vertical tab, form feed. -/
def isPySpace (c : Char) : Bool :=
  c == ' ' || c == '\t' || c == '\n' || c == '\r' || c == '\x0b' || c == '\x0c'

/-- Python `s.strip()`: drop whitespace from both ends. -/
def pyStrip (s : String) : String :=
  String.mk (((s.data.dropWhile isPySpace).reverse.dropWhile isPySpace).reverse)

/-- Trailing-trim only: drop whitespace from the right end. -/
def pyRstrip (s : String) : String :=
  String.mk ((s.data.reverse.dropWhile isPySpace).reverse)

/-- The module constant `REPO_EXCEPTIONS`, as a lookup function. -/
def REPO_EXCEPTIONS (dep_name : String) : Option String :=
  if dep_name = "eyes" then some "https://github.com/cloudhead/eyes.js" else none

/-- Whether `https://` occurs as a substring (at any position): the condition
under which `re.search(r"https:\/\/(.*)", s)` finds a match. -/
def hasHttpsSub : List Char → Bool
  | [] => false
  | c :: cs => strPre "https://".data (c :: cs) || hasHttpsSub cs

/-- Semantics of `re.search(r"https:\/\/(.*)", repo_url)` followed by
`.group(1)`: scan start positions left to right for the literal `https://`;
at the first occurrence, group 1 is everything after it up to the end of the
line (`.` does not cross a newline). `none` models `re.search` returning
`None`, on which `.group(1)` raises. -/
def searchHttps : List Char → Option (List Char)
  | [] => none
  | c :: cs =>
    if strPre "https://".data (c :: cs) then
      some (((c :: cs).drop 8).takeWhile (fun d => d != '\n'))
    else
      searchHttps cs

/-- Word-or-hyphen character class `[\w-]` of Python `re` on ASCII input
(the script's keys are npm package identifiers): letters, digits,
underscore, hyphen. -/
def isWordChar (c : Char) : Bool :=
  c.isAlphanum || c == '_' || c == '-'

/-- Anchored attempt of `([\w-]+)@` at the head of the list: the greedy run of
`[\w-]` characters must be non-empty and be followed immediately by `@`
(backtracking inside the run can never expose an `@`, since `@` is not in the
class, so only the maximal run can match). -/
def nameMatchAt (cs : List Char) : Option (List Char) :=
  let run := cs.takeWhile isWordChar
  if run.isEmpty then none
  else if (cs.drop run.length).head? = some '@' then some run else none

/-- Semantics of `re.search(r"([\w-]+)@", dep)` followed by `.group(1)`:
leftmost start position at which the anchored pattern matches. -/
def searchName : List Char → Option (List Char)
  | [] => none
  | c :: cs =>
    match nameMatchAt (c :: cs) with
    | some g => some g
    | none => searchName cs

/-- Whether some `@` in the list is immediately preceded by a `[\w-]`
character: exactly when the key regex `([\w-]+)@` can match somewhere. -/
def hasNameSeed : List Char → Bool
  | c1 :: c2 :: rest => (isWordChar c1 && c2 == '@') || hasNameSeed (c2 :: rest)
  | _ => false

/-- Modelled from the spec's words, for comparison with the code's name
extraction: the substring of a key before its first `@` character. -/
def beforeFirstAt (k : String) : String :=
  String.mk (k.data.takeWhile (fun c => c != '@'))

/-- The expression `dep_meta.get("repository", REPO_EXCEPTIONS.get(dep_name,
"NO REPO"))`: the value `get_repo_url` goes on to normalize. -/
def resolvedRepo (dep_name : String) (dep_meta : DepMeta) : String :=
  dep_meta.repository.getD ((REPO_EXCEPTIONS dep_name).getD "NO REPO")

/-- The function `get_repo_url(dep_name, dep_meta)` of the script: resolve the
repository string via `dict.get` with the exception table as nested default,
then strip a leading `https://` when the value starts with `https`. -/
def get_repo_url (dep_name : String) (dep_meta : DepMeta) : Except PyError String :=
  let repo_url := resolvedRepo dep_name dep_meta
  if pyStartswith repo_url "https" then
    match searchHttps repo_url.data with
    | some rest => .ok (String.mk rest)
    | none => .error .attributeError
  else
    .ok repo_url

/-- Association-list lookup, the semantics of `deps[dep]` (raising `KeyError`
is modelled by the caller on `none`). -/
def lookupDep : List (String × DepMeta) → String → Option DepMeta
  | [], _ => none
  | (k, m) :: rest, key => if k = key then some m else lookupDep rest key

/-- Code-point comparison on character lists: Python `<=` on strings. -/
def charListLe : List Char → List Char → Bool
  | [], _ => true
  | _ :: _, [] => false
  | a :: as, b :: bs =>
    if a < b then true
    else if b < a then false
    else charListLe as bs

/-- Python string `<=`, used by `sorted`. -/
def strLe (a b : String) : Bool := charListLe a.data b.data

/-- The relation form of `strLe`, for the sorting lemmas. -/
def StrLeR (a b : String) : Prop := strLe a b = true

instance : DecidableRel StrLeR := fun a b => by
  unfold StrLeR
  infer_instance

/-- Python `sorted(deps.keys())`: the keys in ascending code-point
lexicographic order. `sorted` is a stable sort, and since equal string keys
are identical values the result is the unique sorted permutation, so any
correct sorting algorithm computes it; we use insertion sort. -/
def sortedKeys (g : Graph) : List String :=
  List.insertionSort StrLeR (g.map Prod.fst)

/-- Body of the `for dep in alphabetized_dep_names` loop for one key:
look the metadata up, extract the name via the regex, resolve the repo URL,
update `dep_copyright` (the `Option String` state: `none` while unassigned)
from the license file if one is present, then build the row — reading
`dep_copyright` there raises if it was never assigned. Returns the row and
the state the next iteration sees. -/
def updateCopyright (fs : FS) (license_file : String) (st : Option String) :
    Except PyError (Option String) :=
  if license_file = "" then Except.ok st
  else
    match fs license_file with
    | none => Except.error PyError.ioError
    | some lines =>
      match lines.filter (fun l => pyStartswith l "Copyright ") with
      | [] => Except.ok st
      | m :: _ => Except.ok (some (pyStrip m))

/-- Continuation of the loop body of `processDep` after `dep_meta` lookup,
name extraction and `get_repo_url` all succeeded: the `if license_file:`
block (via `updateCopyright`) followed by the row construction, which reads
`dep_copyright` and raises when it was never assigned. -/
def buildRow (fs : FS) (dep_meta : DepMeta) (dep_name repo_url : String)
    (st : Option String) : Except PyError (Record × Option String) :=
  match updateCopyright fs (dep_meta.licenseFile.getD "") st with
  | Except.error e => Except.error e
  | Except.ok st' =>
    match st' with
    | none => Except.error PyError.nameError
    | some c =>
      Except.ok
        ({ Component := dep_name,
           Origin := repo_url,
           License := dep_meta.licenses.getD (LicenseVal.str "LICENSE NOT FOUND"),
           Copyright := c }, st')

def processDep (fs : FS) (deps : Graph) (dep : String) (st : Option String) :
    Except PyError (Record × Option String) :=
  match lookupDep deps dep with
  | none => Except.error PyError.keyError
  | some dep_meta =>
    match searchName dep.data with
    | none => Except.error PyError.attributeError
    | some nm =>
      match get_repo_url (String.mk nm) dep_meta with
      | Except.error e => Except.error e
      | Except.ok repo_url => buildRow fs dep_meta (String.mk nm) repo_url st

/-- The loop over the sorted keys, threading `dep_copyright` and accumulating
`formatted_deps`; the first raised exception aborts the whole run. -/
def buildRows (fs : FS) (deps : Graph) : List String → Option String →
    Except PyError (List Record)
  | [], _ => Except.ok []
  | k :: ks, st =>
    match processDep fs deps k st with
    | Except.error e => Except.error e
    | Except.ok (row, st') =>
      match buildRows fs deps ks st' with
      | Except.error e => Except.error e
      | Except.ok rest => Except.ok (row :: rest)

/-- Outcome of `subprocess.check_output` plus `json.loads` on its stdout:
the scanner exited non-zero, or its stdout was not valid JSON, or it parsed
to a dependency graph. -/
inductive ScanOutcome where
  | exitNonZero
  | invalidJson
  | parsed (g : Graph)

/-- The first two statements of `__main__`: `check_output` raises on a
non-zero exit, `json.loads` raises on malformed output. -/
def fetchDeps : ScanOutcome → Except PyError Graph
  | .exitNonZero => Except.error PyError.calledProcessError
  | .invalidJson => Except.error PyError.jsonDecodeError
  | .parsed g => Except.ok g

/-- The whole `__main__` block up to (but excluding) the CSV write: fetch and
parse the graph, sort the keys, run the loop. -/
def runMain (outcome : ScanOutcome) (fs : FS) : Except PyError (List Record) :=
  match fetchDeps outcome with
  | Except.error e => Except.error e
  | Except.ok deps => buildRows fs deps (sortedKeys deps) none

/-- Content of `LICENSE-3rdparty.csv` after the run, as the record list it
serializes (CSV serialization mechanics are outside the model): the script
opens the file for writing only after the loop finished, so an exception
anywhere earlier leaves whatever was at the path (`prev`) untouched. -/
def csvAfterRun (prev : Option (List Record)) (outcome : ScanOutcome) (fs : FS) :
    Option (List Record) :=
  match runMain outcome fs with
  | Except.ok recs => some recs
  | Except.error _ => prev

/-! ### Properties of the code-point order used by `sorted` -/

theorem charListLe_total : ∀ a b : List Char, charListLe a b = true ∨ charListLe b a = true
  | [], _ => Or.inl rfl
  | _ :: _, [] => Or.inr rfl
  | a :: as, b :: bs => by
    rcases lt_trichotomy a b with hab | hab | hab
    · left; simp [charListLe, hab]
    · subst hab
      rcases charListLe_total as bs with h | h
      · left; simp [charListLe, h]
      · right; simp [charListLe, h]
    · right; simp [charListLe, hab]

theorem charListLe_trans : ∀ a b c : List Char,
    charListLe a b = true → charListLe b c = true → charListLe a c = true
  | [], _, _, _, _ => rfl
  | _ :: _, [], _, h, _ => by simp [charListLe] at h
  | _ :: _, _ :: _, [], _, h => by simp [charListLe] at h
  | a :: as, b :: bs, c :: cs, hab, hbc => by
    rcases lt_trichotomy a b with h1 | h1 | h1
    · rcases lt_trichotomy b c with h2 | h2 | h2
      · simp [charListLe, lt_trans h1 h2]
      · subst h2; simp [charListLe, h1]
      · simp [charListLe, h2, not_lt_of_lt h2] at hbc
    · subst h1
      rcases lt_trichotomy a c with h2 | h2 | h2
      · simp [charListLe, h2]
      · subst h2
        simp only [charListLe, lt_irrefl, if_false] at hab hbc ⊢
        exact charListLe_trans as bs cs hab hbc
      · simp [charListLe, h2, not_lt_of_lt h2] at hbc
    · simp [charListLe, h1, not_lt_of_lt h1] at hab

instance : IsTotal String StrLeR :=
  ⟨fun a b => charListLe_total a.data b.data⟩

instance : IsTrans String StrLeR :=
  ⟨fun a b c => charListLe_trans a.data b.data c.data⟩

/-! ### Prefix and substring facts -/

theorem strPre_iff_append {p s : List Char} : strPre p s = true ↔ ∃ t, s = p ++ t := by
  induction p generalizing s with
  | nil => simp [strPre]
  | cons a as ih =>
    cases s with
    | nil => simp [strPre]
    | cons b bs =>
      simp only [strPre, Bool.and_eq_true, beq_iff_eq, ih, List.cons_append]
      constructor
      · rintro ⟨rfl, t, rfl⟩; exact ⟨t, rfl⟩
      · rintro ⟨t, h⟩
        injection h with h1 h2
        exact ⟨h1.symm, t, h2⟩

theorem strPre_self_append (p t : List Char) : strPre p (p ++ t) = true :=
  strPre_iff_append.mpr ⟨t, rfl⟩

theorem pyStrip_eq_pyRstrip {m : String} (h : pyStartswith m "Copyright " = true) :
    pyStrip m = pyRstrip m := by
  unfold pyStartswith at h
  rcases strPre_iff_append.mp h with ⟨t, ht⟩
  unfold pyStrip pyRstrip
  rw [ht]
  rfl

theorem searchHttps_eq_none_of_not_sub {cs : List Char} (h : hasHttpsSub cs = false) :
    searchHttps cs = none := by
  induction cs with
  | nil => rfl
  | cons c cs ih =>
    unfold hasHttpsSub at h
    rw [Bool.or_eq_false_iff] at h
    unfold searchHttps
    rw [h.1]
    simp only [Bool.false_eq_true, if_false]
    exact ih h.2

theorem searchHttps_isSome_of_sub {cs : List Char} (h : hasHttpsSub cs = true) :
    ∃ r, searchHttps cs = some r := by
  induction cs with
  | nil => simp [hasHttpsSub] at h
  | cons c cs ih =>
    unfold hasHttpsSub at h
    unfold searchHttps
    rcases Bool.or_eq_true_iff.mp h with h1 | h1
    · rw [h1]; simp
    · cases h2 : strPre "https://".data (c :: cs) with
      | true => simp
      | false =>
        simp only [Bool.false_eq_true, if_false]
        exact ih h1

theorem takeWhile_all_append {p : Char → Bool} :
    ∀ (l1 : List Char) (a : Char) (l2 : List Char),
      (∀ x ∈ l1, p x = true) → p a = false →
      (l1 ++ a :: l2).takeWhile p = l1 ∧ (l1 ++ a :: l2).drop l1.length = a :: l2
  | [], a, l2, _, ha => by simp [List.takeWhile, ha]
  | b :: l1, a, l2, hall, ha => by
    have hb : p b = true := hall b (List.mem_cons_self b l1)
    have ih := takeWhile_all_append l1 a l2 (fun x hx => hall x (List.mem_cons_of_mem b hx)) ha
    simp only [List.cons_append, List.takeWhile_cons, hb, if_true, List.length_cons,
      List.drop_succ_cons]
    exact ⟨by rw [ih.1], ih.2⟩

theorem nameMatchAt_of_wordRun (p : Char) (ps rest : List Char)
    (hall : ∀ x ∈ p :: ps, isWordChar x = true) :
    nameMatchAt ((p :: ps) ++ '@' :: rest) = some (p :: ps) := by
  have hAt : isWordChar '@' = false := by decide
  have hta := takeWhile_all_append (p :: ps) '@' rest hall hAt
  unfold nameMatchAt
  rw [hta.1]
  simp only [List.isEmpty_cons, Bool.false_eq_true, if_false]
  rw [hta.2]
  simp

theorem searchName_of_wordRun (p : Char) (ps rest : List Char)
    (hall : ∀ x ∈ p :: ps, isWordChar x = true) :
    searchName ((p :: ps) ++ '@' :: rest) = some (p :: ps) := by
  have h := nameMatchAt_of_wordRun p ps rest hall
  rw [List.cons_append] at h ⊢
  unfold searchName
  rw [h]

theorem nameMatchAt_some_seed :
    ∀ cs : List Char, (∃ g, nameMatchAt cs = some g) → hasNameSeed cs = true
  | [], h => by
    rcases h with ⟨g, hg⟩
    simp [nameMatchAt] at hg
  | c :: cs, h => by
    rcases h with ⟨g, hg⟩
    cases hc : isWordChar c with
    | false =>
      unfold nameMatchAt at hg
      simp only [List.takeWhile_cons, hc, Bool.false_eq_true, if_false, List.isEmpty_nil,
        if_true] at hg
      exact Option.noConfusion hg
    | true =>
      cases cs with
      | nil =>
        unfold nameMatchAt at hg
        simp [List.takeWhile_cons, hc] at hg
      | cons d ds =>
        cases hd : isWordChar d with
        | false =>
          cases hdAt : d == '@' with
          | false =>
            unfold nameMatchAt at hg
            simp only [List.takeWhile_cons, hc, if_true, hd, Bool.false_eq_true, if_false,
              List.isEmpty_cons, List.length_cons, List.length_nil, List.drop_succ_cons,
              List.drop_zero, List.head?_cons, Option.some.injEq] at hg
            rw [if_neg (by simpa using hdAt)] at hg
            exact Option.noConfusion hg
          | true =>
            unfold hasNameSeed
            rw [hc, hdAt]
            rfl
        | true =>
          have hrec : ∃ g', nameMatchAt (d :: ds) = some g' := by
            unfold nameMatchAt at hg ⊢
            simp only [List.takeWhile_cons, hc, hd, if_true, List.isEmpty_cons,
              Bool.false_eq_true, if_false, List.length_cons, List.drop_succ_cons] at hg ⊢
            by_cases hcond : (ds.drop (ds.takeWhile isWordChar).length).head? = some '@'
            · rw [if_pos hcond]
              exact ⟨_, rfl⟩
            · rw [if_neg hcond] at hg
              exact Option.noConfusion hg
          have := nameMatchAt_some_seed (d :: ds) hrec
          unfold hasNameSeed
          rw [this]
          simp

theorem searchName_some_seed :
    ∀ cs : List Char, (∃ g, searchName cs = some g) → hasNameSeed cs = true
  | [], h => by
    rcases h with ⟨g, hg⟩
    cases hg
  | c :: cs, h => by
    rcases h with ⟨g, hg⟩
    unfold searchName at hg
    cases hm : nameMatchAt (c :: cs) with
    | some g' => exact nameMatchAt_some_seed (c :: cs) ⟨g', hm⟩
    | none =>
      rw [hm] at hg
      have htail := searchName_some_seed cs ⟨g, hg⟩
      cases cs with
      | nil => cases hg
      | cons d ds =>
        unfold hasNameSeed
        rw [htail]
        simp

theorem searchName_eq_none_of_no_seed {cs : List Char} (h : hasNameSeed cs = false) :
    searchName cs = none := by
  cases hs : searchName cs with
  | none => rfl
  | some g =>
    have := searchName_some_seed cs ⟨g, hs⟩
    rw [this] at h
    cases h

/-! ### Structure of successful and failing loop iterations -/

theorem buildRow_ok_elim {fs : FS} {dep_meta : DepMeta} {dep_name repo_url : String}
    {st st' : Option String} {row : Record}
    (h : buildRow fs dep_meta dep_name repo_url st = Except.ok (row, st')) :
    updateCopyright fs (dep_meta.licenseFile.getD "") st = Except.ok st' ∧
    ∃ c, st' = some c ∧
      row = { Component := dep_name, Origin := repo_url,
              License := dep_meta.licenses.getD (LicenseVal.str "LICENSE NOT FOUND"),
              Copyright := c } := by
  unfold buildRow at h
  split at h
  · exact Except.noConfusion h
  · rename_i st'' heq
    split at h
    · exact Except.noConfusion h
    · rename_i c
      rw [Except.ok.injEq, Prod.mk.injEq] at h
      exact ⟨by rw [heq, h.2], c, h.2.symm, h.1.symm⟩

theorem processDep_ok_elim {fs : FS} {deps : Graph} {dep : String}
    {st st' : Option String} {row : Record}
    (h : processDep fs deps dep st = Except.ok (row, st')) :
    ∃ dep_meta nm, lookupDep deps dep = some dep_meta ∧ searchName dep.data = some nm ∧
      ∃ repo_url, get_repo_url (String.mk nm) dep_meta = Except.ok repo_url ∧
        buildRow fs dep_meta (String.mk nm) repo_url st = Except.ok (row, st') := by
  unfold processDep at h
  split at h
  · exact Except.noConfusion h
  · rename_i dep_meta hL
    split at h
    · exact Except.noConfusion h
    · rename_i nm hN
      split at h
      · exact Except.noConfusion h
      · rename_i repo_url hU
        exact ⟨dep_meta, nm, hL, hN, repo_url, hU, h⟩

theorem processDep_ok_component {fs : FS} {deps : Graph} {dep : String}
    {st st' : Option String} {row : Record}
    (h : processDep fs deps dep st = Except.ok (row, st')) :
    row.Component = String.mk ((searchName dep.data).getD []) := by
  rcases processDep_ok_elim h with ⟨dep_meta, nm, _, hN, repo_url, _, hB⟩
  rcases buildRow_ok_elim hB with ⟨_, c, _, hrow⟩
  rw [hrow, hN]
  rfl

theorem buildRows_length {fs : FS} {deps : Graph} :
    ∀ {ks : List String} {st : Option String} {out : List Record},
      buildRows fs deps ks st = Except.ok out → out.length = ks.length
  | [], st, out, h => by
    unfold buildRows at h
    rw [Except.ok.injEq] at h
    rw [← h]
    rfl
  | k :: ks, st, out, h => by
    unfold buildRows at h
    split at h
    · exact Except.noConfusion h
    · rename_i pair heq
      split at h
      · exact Except.noConfusion h
      · rename_i rest hrest
        rw [Except.ok.injEq] at h
        rw [← h, List.length_cons, List.length_cons, buildRows_length hrest]

theorem buildRows_cons_err {fs : FS} {deps : Graph} {k : String} {ks : List String}
    {st : Option String} {e : PyError}
    (hp : processDep fs deps k st = Except.error e) :
    buildRows fs deps (k :: ks) st = Except.error e := by
  simp only [buildRows, hp]

theorem buildRows_cons_ok_err {fs : FS} {deps : Graph} {k : String} {ks : List String}
    {st st1 : Option String} {row : Record} {e : PyError}
    (hp : processDep fs deps k st = Except.ok (row, st1))
    (hr : buildRows fs deps ks st1 = Except.error e) :
    buildRows fs deps (k :: ks) st = Except.error e := by
  simp only [buildRows, hp, hr]

theorem buildRows_cons_ok_ok {fs : FS} {deps : Graph} {k : String} {ks : List String}
    {st st1 : Option String} {row : Record} {rest : List Record}
    (hp : processDep fs deps k st = Except.ok (row, st1))
    (hr : buildRows fs deps ks st1 = Except.ok rest) :
    buildRows fs deps (k :: ks) st = Except.ok (row :: rest) := by
  simp only [buildRows, hp, hr]

theorem buildRows_component {fs : FS} {deps : Graph} :
    ∀ {ks : List String} {st : Option String} {out : List Record},
      buildRows fs deps ks st = Except.ok out →
      ∀ i (hi : i < out.length) (hk : i < ks.length),
        (out.get ⟨i, hi⟩).Component =
          String.mk ((searchName (ks.get ⟨i, hk⟩).data).getD [])
  | [], st, out, h => by
    intro i hi hk
    exact absurd hk (Nat.not_lt_zero i)
  | k :: ks, st, out, h => by
    unfold buildRows at h
    split at h
    · exact Except.noConfusion h
    · rename_i row st1 heq
      split at h
      · exact Except.noConfusion h
      · rename_i rest hrest
        rw [Except.ok.injEq] at h
        subst h
        intro i hi hk
        cases i with
        | zero => simpa using processDep_ok_component heq
        | succ j =>
          exact buildRows_component hrest j (Nat.lt_of_succ_lt_succ hi)
            (Nat.lt_of_succ_lt_succ hk)

theorem processDep_ok_searchName {fs : FS} {deps : Graph} {dep : String}
    {st st' : Option String} {row : Record}
    (h : processDep fs deps dep st = Except.ok (row, st')) :
    searchName dep.data ≠ none := by
  rcases processDep_ok_elim h with ⟨dep_meta, nm, _, hN, _⟩
  rw [hN]
  exact Option.noConfusion

theorem buildRows_error_of_bad_key {fs : FS} {deps : Graph} {k : String}
    (hbad : searchName k.data = none) :
    ∀ {ks : List String} (st : Option String), k ∈ ks →
      ∃ e, buildRows fs deps ks st = Except.error e
  | [], st, hmem => absurd hmem (List.not_mem_nil k)
  | k0 :: ks, st, hmem => by
    cases hp : processDep fs deps k0 st with
    | error e => exact ⟨e, buildRows_cons_err hp⟩
    | ok pair =>
      obtain ⟨row, st1⟩ := pair
      rcases List.mem_cons.mp hmem with rfl | hmem'
      · exact absurd hbad (processDep_ok_searchName hp)
      · rcases @buildRows_error_of_bad_key fs deps k hbad ks st1 hmem' with ⟨e, he⟩
        exact ⟨e, buildRows_cons_ok_err hp he⟩

theorem processDep_eq_buildRow {fs : FS} {deps : Graph} {dep : String} {dep_meta : DepMeta}
    {nm : List Char} {repo_url : String} {st : Option String}
    (hL : lookupDep deps dep = some dep_meta)
    (hN : searchName dep.data = some nm)
    (hU : get_repo_url (String.mk nm) dep_meta = Except.ok repo_url) :
    processDep fs deps dep st = buildRow fs dep_meta (String.mk nm) repo_url st := by
  simp only [processDep, hL, hN, hU]

theorem buildRow_nameError {fs : FS} {dep_meta : DepMeta} {dep_name repo_url : String}
    (hlf : dep_meta.licenseFile.getD "" = "" ∨
      ∃ lines, dep_meta.licenseFile.getD "" ≠ "" ∧
        fs (dep_meta.licenseFile.getD "") = some lines ∧
        lines.filter (fun l => pyStartswith l "Copyright ") = []) :
    buildRow fs dep_meta dep_name repo_url none = Except.error PyError.nameError := by
  rcases hlf with h1 | ⟨lines, hne, hfs, hfil⟩
  · simp [buildRow, updateCopyright, h1]
  · simp only [buildRow, updateCopyright, if_neg hne, hfs, hfil]

/-! ### How `get_repo_url` treats the resolved value -/

theorem searchHttps_of_pre {cs : List Char} (h : strPre "https://".data cs = true) :
    searchHttps cs = some ((cs.drop 8).takeWhile (fun d => d != '\n')) := by
  cases cs with
  | nil => exact absurd h (by decide)
  | cons c cs =>
    unfold searchHttps
    rw [if_pos h]

theorem strPre_https_of_https_slashes {cs : List Char}
    (h : strPre "https://".data cs = true) : strPre "https".data cs = true := by
  rcases strPre_iff_append.mp h with ⟨t, rfl⟩
  have hsplit : ("https://".data : List Char) = "https".data ++ "://".data := by decide
  rw [hsplit, List.append_assoc]
  exact strPre_self_append "https".data ("://".data ++ t)

theorem get_repo_url_https_no_newline {dep_name : String} {dep_meta : DepMeta}
    (h : pyStartswith (resolvedRepo dep_name dep_meta) "https://" = true)
    (hn : '\n' ∉ (resolvedRepo dep_name dep_meta).data) :
    get_repo_url dep_name dep_meta =
      Except.ok (String.mk ((resolvedRepo dep_name dep_meta).data.drop 8)) := by
  unfold pyStartswith at h
  have h5 : pyStartswith (resolvedRepo dep_name dep_meta) "https" = true :=
    strPre_https_of_https_slashes h
  have hsearch := searchHttps_of_pre h
  have htake : (((resolvedRepo dep_name dep_meta).data.drop 8).takeWhile
      (fun d => d != '\n')) = (resolvedRepo dep_name dep_meta).data.drop 8 := by
    rw [List.takeWhile_eq_self_iff]
    intro x hx
    have hxmem : x ∈ (resolvedRepo dep_name dep_meta).data := List.mem_of_mem_drop hx
    have hxne : x ≠ '\n' := fun hcontr => hn (hcontr ▸ hxmem)
    simpa using hxne
  rw [htake] at hsearch
  simp only [get_repo_url, h5, if_true, hsearch]

theorem get_repo_url_not_https {dep_name : String} {dep_meta : DepMeta}
    (h : pyStartswith (resolvedRepo dep_name dep_meta) "https" = false) :
    get_repo_url dep_name dep_meta = Except.ok (resolvedRepo dep_name dep_meta) := by
  simp only [get_repo_url, h, Bool.false_eq_true, if_false]

theorem get_repo_url_https_no_sub {dep_name : String} {dep_meta : DepMeta}
    (h : pyStartswith (resolvedRepo dep_name dep_meta) "https" = true)
    (hsub : hasHttpsSub (resolvedRepo dep_name dep_meta).data = false) :
    get_repo_url dep_name dep_meta = Except.error PyError.attributeError := by
  simp only [get_repo_url, h, if_true, searchHttps_eq_none_of_not_sub hsub]

theorem get_repo_url_default {dep_name : String} {dep_meta : DepMeta}
    (hrep : dep_meta.repository = none) (hexc : REPO_EXCEPTIONS dep_name = none) :
    get_repo_url dep_name dep_meta = Except.ok "NO REPO" := by
  have hres : resolvedRepo dep_name dep_meta = "NO REPO" := by
    simp [resolvedRepo, hrep, hexc]
  have hfalse : pyStartswith "NO REPO" "https" = false := by decide
  rw [get_repo_url_not_https (by rw [hres]; exact hfalse), hres]

/-! ### Claim theorems -/

/-- C1: the claim says a record for a dependency with no `licenseFile` has an
empty Copyright field. The code violates it: on a two-dependency graph where
the first dependency has a license file with a copyright line and the second
has no `licenseFile` at all, the second row's Copyright is the value carried
over from the first iteration (`dep_copyright` is never reset), which is
non-empty. -/
theorem claimC1_copyright_carry_over :
    runMain
        (ScanOutcome.parsed [("a@1", { licenseFile := some "LIC" }), ("b@1", {})])
        (fun p => if p = "LIC" then some ["Copyright 2020 X"] else none) =
      Except.ok
        [{ Component := "a", Origin := "NO REPO",
           License := LicenseVal.str "LICENSE NOT FOUND",
           Copyright := "Copyright 2020 X" },
         { Component := "b", Origin := "NO REPO",
           License := LicenseVal.str "LICENSE NOT FOUND",
           Copyright := "Copyright 2020 X" }] ∧
    ({} : DepMeta).licenseFile = none ∧
    ("Copyright 2020 X" : String) ≠ "" :=
  ⟨rfl, rfl, by decide⟩

/-- C3 as stated is false: `get_repo_url` is not total. When the resolved
repository value starts with `https` but contains no `https://` (here
`"httpsy"`), `re.search` returns `None` and `.group(1)` raises an
`AttributeError` instead of returning a string. -/
theorem claimC3_counterexample :
    get_repo_url "pkg" { repository := some "httpsy" } =
      Except.error PyError.attributeError := rfl

/-- C3 amended: `get_repo_url` returns a string whenever the resolved
repository value does not start with `https`, or does contain `https://`
somewhere; it still defaults to the sentinel `NO REPO` when neither a
`repository` field nor a fallback entry exists; but when the resolved value
starts with `https` and contains no `https://`, it raises an
`AttributeError`. -/
theorem claimC3_amended (dep_name : String) (dep_meta : DepMeta) :
    (pyStartswith (resolvedRepo dep_name dep_meta) "https" = false ∨
        hasHttpsSub (resolvedRepo dep_name dep_meta).data = true →
      ∃ s, get_repo_url dep_name dep_meta = Except.ok s) ∧
    (dep_meta.repository = none → REPO_EXCEPTIONS dep_name = none →
      get_repo_url dep_name dep_meta = Except.ok "NO REPO") ∧
    (pyStartswith (resolvedRepo dep_name dep_meta) "https" = true →
        hasHttpsSub (resolvedRepo dep_name dep_meta).data = false →
      get_repo_url dep_name dep_meta = Except.error PyError.attributeError) := by
  refine ⟨?_, ?_, ?_⟩
  · rintro (h | h)
    · exact ⟨resolvedRepo dep_name dep_meta, get_repo_url_not_https h⟩
    · cases hpre : pyStartswith (resolvedRepo dep_name dep_meta) "https" with
      | false => exact ⟨resolvedRepo dep_name dep_meta, get_repo_url_not_https hpre⟩
      | true =>
        rcases searchHttps_isSome_of_sub h with ⟨r, hr⟩
        refine ⟨String.mk r, ?_⟩
        simp only [get_repo_url, hpre, if_true, hr]
  · exact fun h1 h2 => get_repo_url_default h1 h2
  · exact fun h1 h2 => get_repo_url_https_no_sub h1 h2

theorem claimC3_witness :
    (∃ s, get_repo_url "zzz" ({} : DepMeta) = Except.ok s) ∧
    get_repo_url "zzz" ({} : DepMeta) = Except.ok "NO REPO" :=
  ⟨(claimC3_amended "zzz" {}).1 (Or.inl (by decide)),
   (claimC3_amended "zzz" {}).2.1 rfl rfl⟩

/-- C4 as stated is false on two points. A resolved value that starts with
`https` but not with `https://` is not returned unchanged: the code raises an
`AttributeError`. And for a value that begins with `https://` but contains a
newline, the code returns only the text up to the newline, not the whole
value minus the scheme (`.` in the regex stops at a newline). -/
theorem claimC4_counterexample :
    get_repo_url "pkg" { repository := some "httpsXrepo" } =
        Except.error PyError.attributeError ∧
    get_repo_url "pkg" { repository := some "https://a\nb" } = Except.ok "a" ∧
    ("a" : String) ≠ "a\nb" :=
  ⟨rfl, rfl, by decide⟩

/-- C4 amended: when the resolved value begins with `https://` and contains no
newline, the result is the value with the 8-character scheme prefix removed;
when it does not begin with `https` at all, it is returned unchanged; when it
begins with `https` but contains no `https://`, the call raises an
`AttributeError`. -/
theorem claimC4_amended (dep_name : String) (dep_meta : DepMeta) :
    (pyStartswith (resolvedRepo dep_name dep_meta) "https://" = true →
        '\n' ∉ (resolvedRepo dep_name dep_meta).data →
      get_repo_url dep_name dep_meta =
        Except.ok (String.mk ((resolvedRepo dep_name dep_meta).data.drop 8))) ∧
    (pyStartswith (resolvedRepo dep_name dep_meta) "https" = false →
      get_repo_url dep_name dep_meta = Except.ok (resolvedRepo dep_name dep_meta)) ∧
    (pyStartswith (resolvedRepo dep_name dep_meta) "https" = true →
        hasHttpsSub (resolvedRepo dep_name dep_meta).data = false →
      get_repo_url dep_name dep_meta = Except.error PyError.attributeError) :=
  ⟨fun h hn => get_repo_url_https_no_newline h hn,
   fun h => get_repo_url_not_https h,
   fun h1 h2 => get_repo_url_https_no_sub h1 h2⟩

theorem claimC4_witness :
    get_repo_url "p" { repository := some "https://g.com/x" } =
        Except.ok (String.mk
          ((resolvedRepo "p" { repository := some "https://g.com/x" }).data.drop 8)) ∧
    String.mk
        ((resolvedRepo "p" { repository := some "https://g.com/x" }).data.drop 8) =
      "g.com/x" :=
  ⟨(claimC4_amended "p" { repository := some "https://g.com/x" }).1
      (by decide) (by decide),
   by decide⟩

/-- C5: the resolution order of `get_repo_url` — the metadata's own
`repository` if present, else the fallback table entry for the exact name,
else the sentinel `NO REPO`; and the two concrete consequences the claim
names: metadata without `repository` named `eyes` yields
`github.com/cloudhead/eyes.js`, and metadata with neither `repository` nor a
fallback entry yields `NO REPO`. -/
theorem claimC5_resolution_order (dep_name : String) (dep_meta : DepMeta) :
    (∀ r, dep_meta.repository = some r → resolvedRepo dep_name dep_meta = r) ∧
    (∀ e, dep_meta.repository = none → REPO_EXCEPTIONS dep_name = some e →
      resolvedRepo dep_name dep_meta = e) ∧
    (dep_meta.repository = none → REPO_EXCEPTIONS dep_name = none →
      resolvedRepo dep_name dep_meta = "NO REPO") ∧
    (dep_meta.repository = none → dep_name = "eyes" →
      get_repo_url dep_name dep_meta = Except.ok "github.com/cloudhead/eyes.js") ∧
    (dep_meta.repository = none → REPO_EXCEPTIONS dep_name = none →
      get_repo_url dep_name dep_meta = Except.ok "NO REPO") := by
  refine ⟨?_, ?_, ?_, ?_, ?_⟩
  · intro r h
    simp [resolvedRepo, h]
  · intro e h1 h2
    simp [resolvedRepo, h1, h2]
  · intro h1 h2
    simp [resolvedRepo, h1, h2]
  · intro h1 h2
    subst h2
    obtain ⟨rep, lic, lf⟩ := dep_meta
    simp only at h1
    subst h1
    rfl
  · exact fun h1 h2 => get_repo_url_default h1 h2

theorem claimC5_witness :
    get_repo_url "eyes" ({} : DepMeta) = Except.ok "github.com/cloudhead/eyes.js" ∧
    get_repo_url "zzz" ({} : DepMeta) = Except.ok "NO REPO" :=
  ⟨(claimC5_resolution_order "eyes" {}).2.2.2.1 rfl rfl,
   (claimC5_resolution_order "zzz" {}).2.2.2.2 rfl rfl⟩

/-- C8: a non-zero scanner exit or malformed JSON on its stdout aborts the run
with the corresponding exception before any report output is produced, so no
CSV is created and whatever was at the output path is left untouched. -/
theorem claimC8_scan_failure (fs : FS) (prev : Option (List Record)) :
    runMain ScanOutcome.exitNonZero fs = Except.error PyError.calledProcessError ∧
    runMain ScanOutcome.invalidJson fs = Except.error PyError.jsonDecodeError ∧
    csvAfterRun prev ScanOutcome.exitNonZero fs = prev ∧
    csvAfterRun prev ScanOutcome.invalidJson fs = prev :=
  ⟨rfl, rfl, rfl, rfl⟩

/-- C2 as stated is false: the regex `([\w-]+)@` does not return the substring
before the first `@` for every key. On the key `a.b@1.0.0` the segment before
the first `@` is `a.b`, but `.` is outside the `[\w-]` class, so the leftmost
match of the regex is `b@` and the record's Component is `b`. -/
theorem claimC2_counterexample :
    runMain (ScanOutcome.parsed [("a.b@1.0.0", { licenseFile := some "LIC" })])
        (fun p => if p = "LIC" then some ["Copyright 2020 Z"] else none) =
      Except.ok [{ Component := "b", Origin := "NO REPO",
                   License := LicenseVal.str "LICENSE NOT FOUND",
                   Copyright := "Copyright 2020 Z" }] ∧
    beforeFirstAt "a.b@1.0.0" = "a.b" ∧
    ("b" : String) ≠ "a.b" :=
  ⟨rfl, rfl, by decide⟩

/-- C2 amended: for every key whose segment before the first `@` is non-empty
and consists only of word characters and hyphens, the extracted bare name —
and hence the Component field of any row built for that key — equals the
substring of the key before the first `@`. -/
theorem claimC2_amended (k : String) (p : Char) (ps rest : List Char)
    (hk : k.data = (p :: ps) ++ '@' :: rest)
    (hw : ∀ c ∈ p :: ps, isWordChar c = true) :
    searchName k.data = some (p :: ps) ∧
    beforeFirstAt k = String.mk (p :: ps) ∧
    ∀ (fs : FS) (deps : Graph) (st st' : Option String) (row : Record),
      processDep fs deps k st = Except.ok (row, st') →
      row.Component = beforeFirstAt k := by
  have hname : searchName k.data = some (p :: ps) := by
    rw [hk]
    exact searchName_of_wordRun p ps rest hw
  have hbefore : beforeFirstAt k = String.mk (p :: ps) := by
    unfold beforeFirstAt
    rw [hk]
    have hAt : ('@' != '@') = false := by decide
    have hall : ∀ c ∈ p :: ps, (c != '@') = true := by
      intro c hc
      have hwc := hw c hc
      have hcne : c ≠ '@' := by
        intro hcc
        subst hcc
        exact absurd hwc (by decide)
      simpa using hcne
    rw [(takeWhile_all_append (p :: ps) '@' rest hall hAt).1]
  refine ⟨hname, hbefore, ?_⟩
  intro fs deps st st' row h
  rw [hbefore, processDep_ok_component h, hname]
  rfl

theorem claimC2_witness :
    searchName ("foo@1.0.0" : String).data = some ['f', 'o', 'o'] ∧
    beforeFirstAt "foo@1.0.0" = String.mk ['f', 'o', 'o'] :=
  ⟨(claimC2_amended "foo@1.0.0" 'f' ['o', 'o'] "1.0.0".data rfl (by decide)).1,
   (claimC2_amended "foo@1.0.0" 'f' ['o', 'o'] "1.0.0".data rfl (by decide)).2.1⟩

/-- C6: when a dependency's metadata names a non-empty license file, the file
is readable, and its lines filtered for the prefix `Copyright ` start with
`m`, the row built for that dependency carries `m` with trailing whitespace
trimmed as its Copyright (and `m` is the first such line in file order). -/
theorem claimC6_first_copyright_line (fs : FS) (deps : Graph) (dep : String)
    (st : Option String) (dep_meta : DepMeta) (nm : List Char)
    (repo_url lf : String) (lines : List String) (m : String) (ms : List String)
    (hL : lookupDep deps dep = some dep_meta)
    (hN : searchName dep.data = some nm)
    (hU : get_repo_url (String.mk nm) dep_meta = Except.ok repo_url)
    (hlf : dep_meta.licenseFile = some lf) (hne : lf ≠ "")
    (hfs : fs lf = some lines)
    (hfil : lines.filter (fun l => pyStartswith l "Copyright ") = m :: ms) :
    processDep fs deps dep st =
      Except.ok ({ Component := String.mk nm, Origin := repo_url,
                   License := dep_meta.licenses.getD (LicenseVal.str "LICENSE NOT FOUND"),
                   Copyright := pyRstrip m }, some (pyRstrip m)) := by
  have hm : m ∈ lines.filter (fun l => pyStartswith l "Copyright ") := by
    rw [hfil]
    exact List.mem_cons_self m ms
  have hmp : pyStartswith m "Copyright " = true := (List.mem_filter.mp hm).2
  have hstrip : pyStrip m = pyRstrip m := pyStrip_eq_pyRstrip hmp
  rw [processDep_eq_buildRow hL hN hU]
  have hgd : dep_meta.licenseFile.getD "" = lf := by rw [hlf]; rfl
  simp only [buildRow, updateCopyright, hgd, if_neg hne, hfs, hfil, hstrip]

theorem claimC6_witness :
    processDep (fun p => if p = "LIC" then some ["Copyright 2020 A  "] else none)
        [("a@1", { licenseFile := some "LIC" })] "a@1" none =
      Except.ok ({ Component := String.mk ['a'], Origin := "NO REPO",
                   License := LicenseVal.str "LICENSE NOT FOUND",
                   Copyright := pyRstrip "Copyright 2020 A  " },
        some (pyRstrip "Copyright 2020 A  ")) :=
  claimC6_first_copyright_line
    (fun p => if p = "LIC" then some ["Copyright 2020 A  "] else none)
    [("a@1", { licenseFile := some "LIC" })] "a@1" none
    { licenseFile := some "LIC" } ['a'] "NO REPO" "LIC"
    ["Copyright 2020 A  "] "Copyright 2020 A  " []
    rfl rfl rfl rfl (by decide) rfl rfl

/-- C7: a successful run emits exactly one row per dependency key (no
deduplication, no drops), and the rows are generated in ascending
case-sensitive code-point order of the full `name@version` keys: the sorted
key list is a sorted permutation of the graph's keys and the i-th row's
Component is the name extracted from the i-th sorted key. -/
theorem claimC7_report_shape (g : Graph) (fs : FS) (out : List Record)
    (h : runMain (ScanOutcome.parsed g) fs = Except.ok out) :
    out.length = g.length ∧
    List.Sorted StrLeR (sortedKeys g) ∧
    (sortedKeys g).Perm (g.map Prod.fst) ∧
    ∀ i (hi : i < out.length) (hk : i < (sortedKeys g).length),
      (out.get ⟨i, hi⟩).Component =
        String.mk ((searchName ((sortedKeys g).get ⟨i, hk⟩).data).getD []) := by
  have hb : buildRows fs g (sortedKeys g) none = Except.ok out := by
    simpa only [runMain, fetchDeps] using h
  refine ⟨?_, ?_, ?_, ?_⟩
  · rw [buildRows_length hb]
    unfold sortedKeys
    rw [List.length_insertionSort, List.length_map]
  · exact List.sorted_insertionSort StrLeR (g.map Prod.fst)
  · exact List.perm_insertionSort StrLeR (g.map Prod.fst)
  · exact buildRows_component hb

theorem claimC7_witness :
    ([{ Component := "foo", Origin := "github.com/x/foo",
        License := LicenseVal.str "MIT",
        Copyright := "Copyright 2020 A" }] : List Record).length =
      ([("foo@1.0.0",
         { repository := some "https://github.com/x/foo",
           licenses := some (LicenseVal.str "MIT"),
           licenseFile := some "LIC" })] : Graph).length ∧
    List.Sorted StrLeR (sortedKeys
      [("foo@1.0.0",
        { repository := some "https://github.com/x/foo",
          licenses := some (LicenseVal.str "MIT"),
          licenseFile := some "LIC" })]) :=
  ⟨(claimC7_report_shape
      [("foo@1.0.0",
        { repository := some "https://github.com/x/foo",
          licenses := some (LicenseVal.str "MIT"), licenseFile := some "LIC" })]
      (fun p => if p = "LIC" then some ["Copyright 2020 A"] else none)
      [{ Component := "foo", Origin := "github.com/x/foo",
         License := LicenseVal.str "MIT", Copyright := "Copyright 2020 A" }]
      rfl).1,
   (claimC7_report_shape
      [("foo@1.0.0",
        { repository := some "https://github.com/x/foo",
          licenses := some (LicenseVal.str "MIT"), licenseFile := some "LIC" })]
      (fun p => if p = "LIC" then some ["Copyright 2020 A"] else none)
      [{ Component := "foo", Origin := "github.com/x/foo",
         License := LicenseVal.str "MIT", Copyright := "Copyright 2020 A" }]
      rfl).2.1⟩

/-- C9: when the lexicographically first key's metadata has no usable license
file — the `licenseFile` field is absent or empty, or the file is readable but
contains no line starting with `Copyright ` — the first iteration reads
`dep_copyright` before any assignment, so the run aborts with the
unbound-variable error and no CSV is written. -/
theorem claimC9_unbound_copyright (g : Graph) (fs : FS) (k : String)
    (ktl : List String) (dep_meta : DepMeta) (nm : List Char) (repo_url : String)
    (hsorted : sortedKeys g = k :: ktl)
    (hL : lookupDep g k = some dep_meta)
    (hN : searchName k.data = some nm)
    (hU : get_repo_url (String.mk nm) dep_meta = Except.ok repo_url)
    (hlf : dep_meta.licenseFile.getD "" = "" ∨
      ∃ lines, dep_meta.licenseFile.getD "" ≠ "" ∧
        fs (dep_meta.licenseFile.getD "") = some lines ∧
        lines.filter (fun l => pyStartswith l "Copyright ") = []) :
    runMain (ScanOutcome.parsed g) fs = Except.error PyError.nameError ∧
    ∀ prev, csvAfterRun prev (ScanOutcome.parsed g) fs = prev := by
  have hrow : processDep fs g k none = Except.error PyError.nameError := by
    rw [processDep_eq_buildRow hL hN hU]
    exact buildRow_nameError hlf
  have hrun : runMain (ScanOutcome.parsed g) fs = Except.error PyError.nameError := by
    simp only [runMain, fetchDeps, hsorted]
    exact buildRows_cons_err hrow
  exact ⟨hrun, fun prev => by simp [csvAfterRun, hrun]⟩

theorem claimC9_witness :
    runMain (ScanOutcome.parsed [("a@1", ({} : DepMeta))]) (fun _ => none) =
      Except.error PyError.nameError ∧
    csvAfterRun (some []) (ScanOutcome.parsed [("a@1", ({} : DepMeta))])
      (fun _ => none) = some [] :=
  have h := claimC9_unbound_copyright [("a@1", {})] (fun _ => none) "a@1" [] {}
    ['a'] "NO REPO" rfl rfl rfl rfl (Or.inl rfl)
  ⟨h.1, h.2 (some [])⟩

/-- C10: name extraction is not total over arbitrary keys. If some key in the
graph has no `@`, or no word/hyphen character immediately precedes any of its
`@`s, the regex finds no match and the run aborts with an error before any
row for that key is emitted; no CSV is written. -/
theorem claimC10_bad_key_aborts (g : Graph) (fs : FS) (k : String)
    (hk : k ∈ g.map Prod.fst) (hbad : hasNameSeed k.data = false) :
    (∃ e, runMain (ScanOutcome.parsed g) fs = Except.error e) ∧
    ∀ prev, csvAfterRun prev (ScanOutcome.parsed g) fs = prev := by
  have hnone : searchName k.data = none := searchName_eq_none_of_no_seed hbad
  have hmem : k ∈ sortedKeys g := by
    unfold sortedKeys
    exact (List.mem_insertionSort StrLeR).mpr hk
  rcases @buildRows_error_of_bad_key fs g k hnone (sortedKeys g) none hmem with ⟨e, he⟩
  have hrun : runMain (ScanOutcome.parsed g) fs = Except.error e := by
    simp only [runMain, fetchDeps]
    exact he
  exact ⟨⟨e, hrun⟩, fun prev => by simp [csvAfterRun, hrun]⟩

theorem claimC10_witness :
    (∃ e, runMain (ScanOutcome.parsed [("noatsign", ({} : DepMeta))])
        (fun _ => none) = Except.error e) ∧
    csvAfterRun (some []) (ScanOutcome.parsed [("noatsign", ({} : DepMeta))])
      (fun _ => none) = some [] :=
  have h := claimC10_bad_key_aborts [("noatsign", {})] (fun _ => none) "noatsign"
    (by decide) (by decide)
  ⟨h.1, h.2 (some [])⟩
